import Mathlib

/-!
Shallow embedding of the Blockly block-rendering measurement pipeline
(`Blockly.blockRendering.RenderInfo` and friends) together with the Zelos
renderer's constant provider, measurables and drawer, as found in the
repository sources.  Geometry is modelled with exact rationals (`ℚ`),
standing in for JavaScript numbers; all arithmetic performed by the code
under consideration (addition, subtraction, `Math.max`, halving) is exact
on the inputs that occur, so `ℚ` is a faithful carrier.
-/

set_option autoImplicit false

namespace Blockly

/-- String prefix test on the underlying character lists; mirrors the
JavaScript idiom `s.indexOf(pat) == 0`. -/
def listStartsWith : List Char → List Char → Bool
  | [], _ => true
  | _ :: _, [] => false
  | a :: as, b :: bs => a = b && listStartsWith as bs

/-- Substring test on character lists; mirrors `s.indexOf(pat) > -1`. -/
def listContainsSeq (pat : List Char) : List Char → Bool
  | [] => listStartsWith pat []
  | c :: rest => listStartsWith pat (c :: rest) || listContainsSeq pat rest

/-- String form of `listStartsWith` (JavaScript `indexOf == 0`). -/
def strStartsWith (pat s : String) : Bool :=
  listStartsWith pat.toList s.toList

/-- String form of `listContainsSeq` (JavaScript `indexOf > -1`). -/
def strContainsStr (pat s : String) : Bool :=
  listContainsSeq pat.toList s.toList

/-- Rendering constants referenced by the embedded code.  `MEDIUM_PADDING`
and `LARGE_PADDING` come from the base constant provider (values not fixed
by the sources here, so they are parameters); `CORNER_RADIUS` and
`NOTCH_HEIGHT` are the Zelos values used by the Zelos corner measurables;
the jagged-edge dimensions parameterise the collapsed-block measurable. -/
structure Constants where
  mediumPadding : ℚ
  largePadding : ℚ
  cornerRadius : ℚ
  notchHeight : ℚ
  jaggedWidth : ℚ
  jaggedHeight : ℚ
deriving DecidableEq

/-- A `Blockly.blockRendering.Measurable`: a typed box.  The `mtype` string
and `isInput` flag are exactly the fields the source predicates consult. -/
structure Measurable where
  mtype : String
  isInput : Bool
  width : ℚ
  height : ℚ
  xPos : ℚ
  centerline : ℚ
deriving DecidableEq

namespace Measurable

/-- Predicate `isField` from `measurables/base.js`. -/
def isField (m : Measurable) : Bool := m.mtype == "field"

/-- Predicate `isHat` from `measurables/base.js`. -/
def isHat (m : Measurable) : Bool := m.mtype == "hat"

/-- Predicate `isIcon` from `measurables/base.js`. -/
def isIcon (m : Measurable) : Bool := m.mtype == "icon"

/-- Predicate `isSpacer` from `measurables/base.js`. -/
def isSpacer (m : Measurable) : Bool :=
  m.mtype == "between-row spacer" || m.mtype == "in-row spacer"

/-- Predicate `isExternalInput` from `measurables/base.js`. -/
def isExternalInput (m : Measurable) : Bool := m.mtype == "external value input"

/-- Predicate `isInlineInput` from `measurables/base.js`. -/
def isInlineInput (m : Measurable) : Bool := m.mtype == "inline input"

/-- Predicate `isStatementInput` from `measurables/base.js`. -/
def isStatementInput (m : Measurable) : Bool := m.mtype == "statement input"

/-- Predicate `isPreviousConnection` from `measurables/base.js`. -/
def isPreviousConnection (m : Measurable) : Bool := m.mtype == "previous connection"

/-- Predicate `isNextConnection` from `measurables/base.js`. -/
def isNextConnection (m : Measurable) : Bool := m.mtype == "next connection"

/-- Predicate `isCorner` from `measurables/base.js`:
`this.type.indexOf('corner') > -1`. -/
def isCorner (m : Measurable) : Bool := strContainsStr "corner" m.mtype

/-- Predicate `isRoundedCorner` from `measurables/base.js`:
`this.type.indexOf('round corner') == 0`. -/
def isRoundedCorner (m : Measurable) : Bool := strStartsWith "round corner" m.mtype

/-- Predicate `isSquareCorner` from `measurables/base.js`:
`this.type.indexOf('square corner') == 0`. -/
def isSquareCorner (m : Measurable) : Bool := strStartsWith "square corner" m.mtype

/-- Predicate `isRightCorner` from `measurables/base.js`:
`this.type.indexOf('corner right') > -1`. -/
def isRightCorner (m : Measurable) : Bool := strContainsStr "corner right" m.mtype

/-- Predicate `isJaggedEdge` from `measurables/base.js`. -/
def isJaggedEdge (m : Measurable) : Bool := m.mtype == "jagged edge"

end Measurable

/-- Modelled from the spec: the `Blockly.blockRendering.InRowSpacer`
constructor is not among the sources; a spacer is "an invisible Measurable
whose sole purpose is reserving horizontal gap", so it carries the given
width and no height. -/
def mkInRowSpacer (w : ℚ) : Measurable :=
  ⟨"in-row spacer", false, w, 0, 0, 0⟩

/-- Modelled from the spec: the `Blockly.blockRendering.Field` measurable
constructor is not among the sources; it is a typed box taking the size of
the underlying field. -/
def mkField (w h : ℚ) : Measurable :=
  ⟨"field", false, w, h, 0, 0⟩

/-- Modelled from the spec: the `Blockly.blockRendering.Icon` measurable
constructor is not among the sources. -/
def mkIcon (w h : ℚ) : Measurable :=
  ⟨"icon", false, w, h, 0, 0⟩

/-- Modelled from the spec: the `Blockly.blockRendering.JaggedEdge`
constructor is not among the sources; its size comes from constants. -/
def mkJaggedEdge (c : Constants) : Measurable :=
  ⟨"jagged edge", false, c.jaggedWidth, c.jaggedHeight, 0, 0⟩

/-- Modelled from the spec: the `Blockly.blockRendering.InlineInput`
measurable constructor is not among the sources; an input-connection
measurable with `isInput` set, sized by the input it represents. -/
def mkInlineInput (w h : ℚ) : Measurable :=
  ⟨"inline input", true, w, h, 0, 0⟩

/-- Modelled from the spec: the `Blockly.blockRendering.ExternalValueInput`
measurable constructor is not among the sources. -/
def mkExternalValueInput (w h : ℚ) : Measurable :=
  ⟨"external value input", true, w, h, 0, 0⟩

/-- Modelled from the spec: the `Blockly.blockRendering.StatementInput`
measurable constructor is not among the sources. -/
def mkStatementInput (w h : ℚ) : Measurable :=
  ⟨"statement input", true, w, h, 0, 0⟩

/-- Modelled from the spec: the `Blockly.blockRendering.OutputConnection`
measurable constructor is not among the sources; only its width is read by
the layout passes. -/
def mkOutputConnection (w : ℚ) : Measurable :=
  ⟨"output connection", false, w, 0, 0, 0⟩

/-- The Zelos `RoundCorner` measurable from the sources: type string
`'round corner'`, width `CORNER_RADIUS`, height `NOTCH.height / 2`. -/
def mkRoundCorner (c : Constants) : Measurable :=
  ⟨"round corner", false, c.cornerRadius, c.notchHeight / 2, 0, 0⟩

/-- The Zelos `RightRoundCorner` measurable from the sources: type string
`'right round corner'`, width `CORNER_RADIUS`, height `NOTCH.height / 2`. -/
def mkRightRoundCorner (c : Constants) : Measurable :=
  ⟨"right round corner", false, c.cornerRadius, c.notchHeight / 2, 0, 0⟩

/-- A `Blockly.blockRendering.Row`: ordered elements plus aggregate data
and the flags the layout passes read and write. -/
structure Row where
  rtype : String
  elements : List Measurable
  width : ℚ
  height : ℚ
  widthWithConnectedBlocks : ℚ
  xPos : ℚ
  yPos : ℚ
  statementEdge : ℚ
  startY : ℚ
  overhangY : ℚ
  hasStatement : Bool
  hasInlineInput : Bool
  hasExternalInput : Bool
  hasDummyInput : Bool
  hasJaggedEdge : Bool
  followsStatement : Bool
deriving DecidableEq

/-- A fresh row with no elements and cleared aggregates. -/
def emptyRow : Row :=
  ⟨"input row", [], 0, 0, 0, 0, 0, 0, 0, 0,
    false, false, false, false, false, false⟩

/-- A fresh `InputRow` (type tag `'input row'`). -/
def emptyInputRow : Row := emptyRow

/-- Sum of element widths. -/
def sumWidths (l : List Measurable) : ℚ :=
  l.foldl (fun a e => a + e.width) 0

/-- Maximum of element heights (0 when empty). -/
def maxHeights (l : List Measurable) : ℚ :=
  l.foldl (fun a e => max a e.height) 0

/-- Modelled from the spec: `Blockly.blockRendering.Row.prototype.measure`
is not among the sources; per the spec a row "computes its own width/height
from contents" and "every Row's total measured width equals the sum of its
Measurables' widths".  Connected child blocks are out of scope, so
`widthWithConnectedBlocks` is the measured width. -/
def rowMeasure (r : Row) : Row :=
  { r with width := sumWidths r.elements, height := maxHeights r.elements,
           widthWithConnectedBlocks := sumWidths r.elements }

/-- Width of the last input element of a list scanned from the end
(0 when there is none, which the pipeline never relies on). -/
def findInputWidth : List Measurable → ℚ
  | [] => 0
  | e :: rest => if e.isInput then e.width else findInputWidth rest

/-- Modelled from the spec: `Row.prototype.getLastInput` is not among the
sources; it scans the row's elements from the end for the last input
measurable.  Only its width is consumed by the layout passes. -/
def rowLastInputWidth (r : Row) : ℚ :=
  findInputWidth r.elements.reverse

/-- Replace the width of the first element (scanning from the head) that
satisfies `Measurable.isSpacer`, adding `missing`; reports whether a spacer
was found. -/
def growFirstSpacer (missing : ℚ) : List Measurable → List Measurable × Bool
  | [] => ([], false)
  | e :: rest =>
      if e.isSpacer then ({ e with width := e.width + missing } :: rest, true)
      else
        let p := growFirstSpacer missing rest
        (e :: p.1, p.2)

/-- The logical types an input in a block's input list can carry
(`Blockly.INPUT_VALUE`, `Blockly.NEXT_STATEMENT`, `Blockly.DUMMY_INPUT`);
kept as numbers matching the `Blockly` constants so that the default
branches of the embedded code stay reachable. -/
def INPUT_VALUE : Nat := 1

/-- `Blockly.OUTPUT_VALUE`. -/
def OUTPUT_VALUE : Nat := 2

/-- `Blockly.NEXT_STATEMENT`. -/
def NEXT_STATEMENT : Nat := 3

/-- `Blockly.PREVIOUS_STATEMENT`. -/
def PREVIOUS_STATEMENT : Nat := 4

/-- `Blockly.DUMMY_INPUT`. -/
def DUMMY_INPUT : Nat := 5

/-- A field on an input: only its rendered size matters to layout. -/
structure BField where
  width : ℚ
  height : ℚ
deriving DecidableEq

/-- An icon on a block. -/
structure BIcon where
  width : ℚ
  height : ℚ
  collapseHidden : Bool
deriving DecidableEq

/-- A logical input of a block: type tag, visibility, fields, and the size
its connection measurable would take. -/
structure BInput where
  itype : Nat
  visible : Bool
  fields : List BField
  connWidth : ℚ
  connHeight : ℚ
deriving DecidableEq

/-- The read-only snapshot of a block consumed by the measure pass.  The
top and bottom row contents come from `TopRow.populate` /
`BottomRow.populate`, which are not among the sources, so they are carried
as data. -/
structure Block where
  inputsInline : Bool
  collapsed : Bool
  insertionMarker : Bool
  rtl : Bool
  outputWidth : Option ℚ
  icons : List BIcon
  inputList : List BInput
  topElements : List Measurable
  bottomElements : List Measurable
  topStartY : ℚ
  bottomOverhangY : ℚ
deriving DecidableEq

/-- The mutable state of a `Blockly.blockRendering.RenderInfo`. -/
structure RenderInfo where
  isInline : Bool
  isCollapsed : Bool
  isInsertionMarker : Bool
  rtl : Bool
  outputConnection : Option Measurable
  rows : List Row
  topRow : Row
  bottomRow : Row
  hiddenIcons : List Measurable
  width : ℚ
  widthWithChildren : ℚ
  height : ℚ
  statementEdge : ℚ
  startX : ℚ
  startY : ℚ
deriving DecidableEq

/-- Modelled from the spec: `TopRow.populate` is not among the sources;
it fills the top row with the block's corner/hat/previous-connection
elements and records the drawing start offset. -/
def populateTopRow (b : Block) : Row :=
  { emptyRow with rtype := "top row", elements := b.topElements,
                  startY := b.topStartY }

/-- Modelled from the spec: `BottomRow.populate` is not among the sources;
it fills the bottom row with the block's corner/next-connection elements. -/
def populateBottomRow (b : Block) : Row :=
  { emptyRow with rtype := "bottom row", elements := b.bottomElements,
                  overhangY := b.bottomOverhangY }

/-- The `RenderInfo` constructor from the sources: captures the block's
flags and output connection and starts with empty rows. -/
def initRenderInfo (b : Block) : RenderInfo :=
  { isInline := b.inputsInline && !b.collapsed
    isCollapsed := b.collapsed
    isInsertionMarker := b.insertionMarker
    rtl := b.rtl
    outputConnection := b.outputWidth.map mkOutputConnection
    rows := []
    topRow := populateTopRow b
    bottomRow := populateBottomRow b
    hiddenIcons := []
    width := 0
    widthWithChildren := 0
    height := 0
    statementEdge := 0
    startX := 0
    startY := 0 }

/-- `RenderInfo.prototype.shouldStartNewRow_` from the sources. -/
def shouldStartNewRow (isInline : Bool) (input : BInput)
    (lastInput : Option BInput) : Bool :=
  match lastInput with
  | none => false
  | some _ =>
      if input.itype = NEXT_STATEMENT then true
      else if input.itype = INPUT_VALUE ∨ input.itype = DUMMY_INPUT then !isInline
      else false

/-- `RenderInfo.prototype.addInput_` from the sources. -/
def addInput (isInline : Bool) (input : BInput) (activeRow : Row) : Row :=
  if isInline && input.itype == INPUT_VALUE then
    { activeRow with
        elements := activeRow.elements ++ [mkInlineInput input.connWidth input.connHeight]
        hasInlineInput := true }
  else if input.itype = NEXT_STATEMENT then
    { activeRow with
        elements := activeRow.elements ++ [mkStatementInput input.connWidth input.connHeight]
        hasStatement := true }
  else if input.itype = INPUT_VALUE then
    { activeRow with
        elements := activeRow.elements ++ [mkExternalValueInput input.connWidth input.connHeight]
        hasExternalInput := true }
  else if input.itype = DUMMY_INPUT then
    { activeRow with hasDummyInput := true }
  else activeRow

/-- The input loop of `RenderInfo.prototype.createRows_`: walks the input
list, breaking into rows via `shouldStartNewRow` and populating the active
row with field and input measurables. -/
def createRowsLoop (isInline : Bool) :
    List BInput → Option BInput → Row → List Row → List Row × Row
  | [], _, activeRow, rows => (rows, activeRow)
  | input :: rest, lastInput, activeRow, rows =>
      if input.visible then
        let started :=
          if shouldStartNewRow isInline input lastInput then
            (rows ++ [activeRow], emptyInputRow)
          else (rows, activeRow)
        let withFields :=
          { started.2 with
              elements := started.2.elements ++
                input.fields.map (fun f => mkField f.width f.height) }
        createRowsLoop isInline rest (some input)
          (addInput isInline input withFields) started.1
      else createRowsLoop isInline rest lastInput activeRow rows

/-- The initial active row of `createRows_`: the block's icons that stay
visible go on the first row, before anything else. -/
def createRowsActive (b : Block) (st : RenderInfo) : Row :=
  { emptyInputRow with elements :=
      ((b.icons.map (fun i => (mkIcon i.width i.height, i.collapseHidden))).filter
        (fun p => !(st.isCollapsed && p.2))).map Prod.fst }

/-- The icons hidden while collapsed, collected by `createRows_`. -/
def createRowsHidden (b : Block) (st : RenderInfo) : List Measurable :=
  ((b.icons.map (fun i => (mkIcon i.width i.height, i.collapseHidden))).filter
    (fun p => st.isCollapsed && p.2)).map Prod.fst

/-- The tail of `createRows_`: append a jagged edge to the active row when
collapsed, then push the active row when it has any element. -/
def createRowsFinish (c : Constants) (st : RenderInfo)
    (looped : List Row × Row) : List Row :=
  let activeRow1 :=
    if st.isCollapsed then
      { looped.2 with hasJaggedEdge := true
                      elements := looped.2.elements ++ [mkJaggedEdge c] }
    else looped.2
  if activeRow1.elements.length ≠ 0 then looped.1 ++ [activeRow1] else looped.1

/-- `RenderInfo.prototype.createRows_` from the sources. -/
def createRows (c : Constants) (b : Block) (st : RenderInfo) : RenderInfo :=
  let topRow := populateTopRow b
  let looped := createRowsLoop st.isInline b.inputList none (createRowsActive b st)
    (st.rows ++ [topRow])
  let bottomRow := populateBottomRow b
  { st with rows := createRowsFinish c st looped ++ [bottomRow],
            topRow := topRow, bottomRow := bottomRow,
            hiddenIcons := st.hiddenIcons ++ createRowsHidden b st }

/-- `RenderInfo.prototype.getInRowSpacing_` from the sources.
`NO_PADDING` is modelled from the spec as zero (trailing space after an
external-value or statement input "is zero"). -/
def getInRowSpacing (c : Constants) (prev next : Option Measurable) : ℚ :=
  match prev with
  | some p =>
      if p.isInput && next.isNone then
        if p.isExternalInput then 0
        else if p.isInlineInput then c.largePadding
        else if p.isStatementInput then 0
        else c.mediumPadding
      else c.mediumPadding
  | none => c.mediumPadding

/-- The element walk of `addElemSpacing_`: after every element a spacer is
pushed, sized by the element and its successor. -/
def spacedElems (c : Constants) : List Measurable → List Measurable
  | [] => []
  | [e] => [e, mkInRowSpacer (getInRowSpacing c (some e) none)]
  | e :: e' :: rest =>
      e :: mkInRowSpacer (getInRowSpacing c (some e) (some e')) ::
        spacedElems c (e' :: rest)

/-- Per-row body of `RenderInfo.prototype.addElemSpacing_`: a leading
spacer for rows other than the top and bottom row, then the interleaved
walk. -/
def spaceRow (c : Constants) (r : Row) : Row :=
  { r with elements :=
      (if r.rtype ≠ "top row" ∧ r.rtype ≠ "bottom row" then
        [mkInRowSpacer (getInRowSpacing c none r.elements.head?)]
      else []) ++ spacedElems c r.elements }

/-- `RenderInfo.prototype.addElemSpacing_` from the sources. -/
def addElemSpacing (c : Constants) (st : RenderInfo) : RenderInfo :=
  { st with rows := st.rows.map (spaceRow c) }

/-- The measured rows of `computeBounds_` (each row re-measures itself
first). -/
def measuredRows (st : RenderInfo) : List Row := st.rows.map rowMeasure

/-- `blockWidth` in `computeBounds_`: the widest measured row. -/
def computedBlockWidth (st : RenderInfo) : ℚ :=
  (measuredRows st).foldl (fun acc r => max acc r.width) 0

/-- `widestStatementRowFields` in `computeBounds_`: the widest inner part
(row width minus its last input's width) over the statement rows. -/
def computedStatementEdge (st : RenderInfo) : ℚ :=
  (measuredRows st).foldl
    (fun acc r =>
      if r.hasStatement then max acc (r.width - rowLastInputWidth r) else acc) 0

/-- `widestRowWithConnectedBlocks` in `computeBounds_`. -/
def computedWidestConnected (st : RenderInfo) : ℚ :=
  (measuredRows st).foldl (fun acc r => max acc r.widthWithConnectedBlocks) 0

/-- The per-row statement-edge assignment of `computeBounds_`. -/
def setStatementEdge (se : ℚ) (r : Row) : Row :=
  if r.hasStatement then { r with statementEdge := se } else r

/-- `RenderInfo.prototype.computeBounds_` from the sources. -/
def computeBounds (st : RenderInfo) : RenderInfo :=
  let rows2 := (measuredRows st).map (setStatementEdge (computedStatementEdge st))
  let base :=
    { st with rows := rows2
              statementEdge := computedStatementEdge st
              width := computedBlockWidth st
              widthWithChildren := max (computedBlockWidth st) (computedWidestConnected st) }
  match st.outputConnection with
  | some oc =>
      { base with startX := oc.width
                  width := base.width + oc.width
                  widthWithChildren := base.widthWithChildren + oc.width }
  | none => base

/-- `RenderInfo.prototype.addAlignmentPadding_` from the sources: grow the
row's last spacer (scanning elements from the end) and the row width by
`missingSpace`, when a spacer exists. -/
def addAlignmentPadding (r : Row) (missingSpace : ℚ) : Row :=
  let grown := growFirstSpacer missingSpace r.elements.reverse
  if grown.2 then
    { r with elements := grown.1.reverse, width := r.width + missingSpace }
  else r

/-- Per-row body of `RenderInfo.prototype.alignRowElements_`. -/
def alignRow (infoWidth startX statementEdge : ℚ) (r : Row) : Row :=
  if r.hasInlineInput then r
  else
    let currentWidth := if r.hasStatement then r.width - rowLastInputWidth r else r.width
    let desiredWidth := (if r.hasStatement then statementEdge else infoWidth) - startX
    let missingSpace := desiredWidth - currentWidth
    if missingSpace ≠ 0 then addAlignmentPadding r missingSpace else r

/-- `RenderInfo.prototype.alignRowElements_` from the sources. -/
def alignRowElements (st : RenderInfo) : RenderInfo :=
  { st with rows := st.rows.map (alignRow st.width st.startX st.statementEdge) }

/-- `RenderInfo.prototype.makeSpacerRow_` from the sources, with
`getSpacerRowWidth_` (= width − startX) and `getSpacerRowHeight_`
(= `MEDIUM_PADDING`) inlined; only the previous row is consulted. -/
def makeSpacerRow (c : Constants) (infoWidth startX : ℚ) (prev : Row) : Row :=
  { emptyRow with rtype := "spacer row"
                  width := infoWidth - startX
                  height := c.mediumPadding
                  followsStatement := prev.hasStatement }

/-- The interleaving walk of `RenderInfo.prototype.addRowSpacing_`. -/
def interleaveSpacerRows (c : Constants) (infoWidth startX : ℚ) :
    List Row → List Row
  | [] => []
  | [r] => [r]
  | r :: r' :: rest =>
      r :: makeSpacerRow c infoWidth startX r ::
        interleaveSpacerRows c infoWidth startX (r' :: rest)

/-- `RenderInfo.prototype.addRowSpacing_` from the sources. -/
def addRowSpacing (c : Constants) (st : RenderInfo) : RenderInfo :=
  { st with rows := interleaveSpacerRows c st.width st.startX st.rows }

/-- The element walk of `finalize_`: assign `xPos` by a running cursor and
the centerline from `getElemCenterline_` (= row `yPos` + row height / 2). -/
def finalizeElems (ctr : ℚ) : ℚ → List Measurable → List Measurable
  | _, [] => []
  | x, e :: rest =>
      { e with xPos := x, centerline := ctr } :: finalizeElems ctr (x + e.width) rest

/-- Per-row body of `finalize_`: fix the row's position and lay out its
elements. -/
def finalizeRow (startX y : ℚ) (r : Row) : Row :=
  { r with yPos := y, xPos := startX,
           elements := finalizeElems (y + r.height / 2) startX r.elements }

/-- The row walk of `finalize_`, returning the rows with positions fixed
and the final y cursor. -/
def finalizeRowsGo (startX : ℚ) : ℚ → List Row → List Row × ℚ
  | y, [] => ([], y)
  | y, r :: rest =>
      let done := finalizeRowsGo startX (y + r.height) rest
      (finalizeRow startX y r :: done.1, done.2)

/-- `RenderInfo.prototype.finalize_` from the sources. -/
def finalize (st : RenderInfo) : RenderInfo :=
  let done := finalizeRowsGo st.startX 0 st.rows
  { st with rows := done.1
            height := done.2
            widthWithChildren :=
              (st.rows.foldl (fun acc r => max acc r.widthWithConnectedBlocks) 0)
                + st.startX
            startY := st.topRow.startY }

/-- `RenderInfo.prototype.measure` from the sources, as a transformer of
the `RenderInfo` state (the pipeline mutates `this` in place). -/
def measureState (c : Constants) (b : Block) (st : RenderInfo) : RenderInfo :=
  finalize (addRowSpacing c (alignRowElements (computeBounds
    (addElemSpacing c (createRows c b st)))))

/-- One render pass: a fresh `RenderInfo` constructed from the block, then
`measure()`. -/
def measure (c : Constants) (b : Block) : RenderInfo :=
  measureState c b (initRenderInfo b)

end Blockly

namespace Blockly

/-! ### Path synthesis (Zelos drawer, top and bottom row walks) -/

/-- One absolute-coordinate path primitive, or an opaque shared path
fragment supplied by the constant provider or a connection's shape. -/
inductive PathCmd where
  | moveBy (x y : ℚ)
  | hRel (d : ℚ)
  | vRel (d : ℚ)
  | hAbsTo (x : ℚ)
  | fragTopLeftCorner
  | fragTopRightCorner
  | fragBottomLeftCorner
  | fragBottomRightCorner
  | fragPrevConnPathLeft
  | fragNextConnPathRight
  | fragStartHat
deriving DecidableEq

/-- The per-element branch chain of `Drawer.prototype.drawTop_` from
`renderers/zelos/drawer.js`; an element matching no branch contributes
nothing (there is no else branch in the source). -/
def drawTopStep (elem : Measurable) : List PathCmd :=
  if elem.isRoundedCorner && !elem.isRightCorner then [PathCmd.fragTopLeftCorner]
  else if elem.isRoundedCorner && elem.isRightCorner then [PathCmd.fragTopRightCorner]
  else if elem.mtype == "previous connection" then [PathCmd.fragPrevConnPathLeft]
  else if elem.mtype == "hat" then [PathCmd.fragStartHat]
  else if elem.isSpacer then [PathCmd.hRel elem.width]
  else []

/-- `Drawer.prototype.drawTop_` from the sources: move to the row start,
walk the elements left to right, then drop down by the row height. -/
def drawTop (startY : ℚ) (topRow : Row) : List PathCmd :=
  PathCmd.moveBy topRow.xPos startY ::
    ((topRow.elements.map drawTopStep).flatten ++ [PathCmd.vRel topRow.height])

/-- The per-element branch chain of `Drawer.prototype.drawBottom_` from
`renderers/zelos/drawer.js` (the walk is right to left). -/
def drawBottomStep (rowXPos : ℚ) (elem : Measurable) : List PathCmd :=
  if elem.isNextConnection then [PathCmd.fragNextConnPathRight]
  else if elem.mtype == "square corner left" then [PathCmd.hAbsTo rowXPos]
  else if elem.isRoundedCorner && !elem.isRightCorner then [PathCmd.fragBottomLeftCorner]
  else if elem.isRoundedCorner && elem.isRightCorner then [PathCmd.fragBottomRightCorner]
  else if elem.isSpacer then [PathCmd.hRel (elem.width * (-1))]
  else []

/-- `Drawer.prototype.drawBottom_` from the sources: descend by the row
height minus the overhang, then walk the elements in reverse. -/
def drawBottom (bottomRow : Row) : List PathCmd :=
  PathCmd.vRel (bottomRow.height - bottomRow.overhangY) ::
    (bottomRow.elements.reverse.map (drawBottomStep bottomRow.xPos)).flatten

/-- The element kinds the top-row walk has a branch for (the square corner
is deliberately branchless in the source, a no-op). -/
def topRecognized (e : Measurable) : Bool :=
  e.isRoundedCorner || e.mtype == "previous connection" || e.mtype == "hat" || e.isSpacer

/-- The element kinds the bottom-row walk has a branch for. -/
def bottomRecognized (e : Measurable) : Bool :=
  e.isNextConnection || e.mtype == "square corner left" || e.isRoundedCorner || e.isSpacer

/-! ### Zelos constant provider: `shapeFor` -/

/-- The shape descriptors distinguished by the Zelos `shapeFor`
implementations. -/
inductive ShapeRef where
  | hexagonal
  | rounded
  | notch
  | triangle
  | puzzleTab
deriving DecidableEq

/-- A connection as observed by `shapeFor`: its numeric type tag and the
optional type-check list returned by `getCheck()`. -/
structure Connection where
  ctype : Nat
  check : Option (List String)
deriving DecidableEq

/-- The JavaScript test `checks && checks.indexOf(s) != -1`. -/
def checksHave (conn : Connection) (s : String) : Bool :=
  match conn.check with
  | some l => l.contains s
  | none => false

/-- `Blockly.zelos.ConstantProvider.prototype.shapeFor` from
`renderers/zelos/constants.js` (the hexagonal/rounded version): value
connections checked as Boolean get the hexagon, Number/String and
unchecked value connections get the rounded shape, statement connections
get the notch, and anything else throws. -/
def shapeFor (conn : Connection) : Except String ShapeRef :=
  if conn.ctype = INPUT_VALUE ∨ conn.ctype = OUTPUT_VALUE then
    if checksHave conn "Boolean" then Except.ok ShapeRef.hexagonal
    else if checksHave conn "Number" then Except.ok ShapeRef.rounded
    else if checksHave conn "String" then Except.ok ShapeRef.rounded
    else Except.ok ShapeRef.rounded
  else if conn.ctype = PREVIOUS_STATEMENT ∨ conn.ctype = NEXT_STATEMENT then
    Except.ok ShapeRef.notch
  else Except.error "Unknown type"

/-- The other `shapeFor` override present in the same source file (the
triangle/puzzle-tab version): Boolean-checked value connections get the
triangle, other value connections the puzzle tab. -/
def shapeForAlt (conn : Connection) : Except String ShapeRef :=
  if conn.ctype = INPUT_VALUE ∨ conn.ctype = OUTPUT_VALUE then
    if checksHave conn "Boolean" then Except.ok ShapeRef.triangle
    else Except.ok ShapeRef.puzzleTab
  else if conn.ctype = PREVIOUS_STATEMENT ∨ conn.ctype = NEXT_STATEMENT then
    Except.ok ShapeRef.notch
  else Except.error "Unknown type"

/-! ### Concrete instances used by witnesses and counterexamples -/

/-- Concrete constants: Zelos `CORNER_RADIUS = 4` and `NOTCH_HEIGHT = 8`
from the sources; representative values for the base paddings and the
jagged edge. -/
def cDefault : Constants := ⟨8, 16, 4, 8, 6, 10⟩

/-- A block with no inputs, icons or connections. -/
def blockTrivial : Block :=
  ⟨false, false, false, false, none, [], [], [], [], 0, 0⟩

/-- A visible statement input whose measurable is 32 wide and 16 tall. -/
def inputStatement : BInput := ⟨NEXT_STATEMENT, true, [], 32, 16⟩

/-- A non-inline block with a single statement input. -/
def blockStatement : Block :=
  ⟨false, false, false, false, none, [], [inputStatement], [], [], 0, 0⟩

/-- The same block with an output connection 8 wide. -/
def blockStatementOutput : Block :=
  ⟨false, false, false, false, some 8, [], [inputStatement], [], [], 0, 0⟩

/-- A block with one icon followed by a statement input. -/
def blockIconStatement : Block :=
  ⟨false, false, false, false, none, [⟨12, 12, false⟩], [inputStatement], [], [], 0, 0⟩

/-- The pipeline state just before `alignRowElements_` runs. -/
def preAlign (c : Constants) (b : Block) : RenderInfo :=
  computeBounds (addElemSpacing c (createRows c b (initRenderInfo b)))

end Blockly
namespace Blockly

/-- Auxiliary: flattening the images of a filtered list equals flattening
the images of the whole list when dropped elements map to `[]`. -/
theorem flatten_map_filter {α β : Type} (f : α → List β) (p : α → Bool)
    (l : List α) (h : ∀ e ∈ l, p e = false → f e = []) :
    ((l.filter p).map f).flatten = (l.map f).flatten := by
  induction l with
  | nil => rfl
  | cons a as ih =>
      have ih' := ih (fun e he hp => h e (List.mem_cons_of_mem a he) hp)
      by_cases hp : p a = true
      · simp [List.filter_cons, hp, ih']
      · have hpa : p a = false := by
          cases hv : p a with
          | false => rfl
          | true => exact absurd hv hp
        simp [List.filter_cons, hpa, h a (List.mem_cons_self a as) hpa, ih']

/-- Unrecognized elements contribute nothing to the top-row walk. -/
theorem drawTopStep_unrecognized (e : Measurable) (h : topRecognized e = false) :
    drawTopStep e = [] := by
  have h1 : e.isRoundedCorner = false := by
    revert h; unfold topRecognized; cases e.isRoundedCorner <;> simp
  have h2 : (e.mtype == "previous connection") = false := by
    revert h; unfold topRecognized; cases hv : (e.mtype == "previous connection") <;> simp
  have h3 : (e.mtype == "hat") = false := by
    revert h; unfold topRecognized; cases hv : (e.mtype == "hat") <;> simp
  have h4 : e.isSpacer = false := by
    revert h; unfold topRecognized; cases hv : e.isSpacer <;> simp
  simp [drawTopStep, h1, h2, h3, h4]

/-- Unrecognized elements contribute nothing to the bottom-row walk. -/
theorem drawBottomStep_unrecognized (x : ℚ) (e : Measurable)
    (h : bottomRecognized e = false) : drawBottomStep x e = [] := by
  have h1 : e.isNextConnection = false := by
    revert h; unfold bottomRecognized; cases e.isNextConnection <;> simp
  have h2 : (e.mtype == "square corner left") = false := by
    revert h; unfold bottomRecognized
    cases hv : (e.mtype == "square corner left") <;> simp
  have h3 : e.isRoundedCorner = false := by
    revert h; unfold bottomRecognized; cases hv : e.isRoundedCorner <;> simp
  have h4 : e.isSpacer = false := by
    revert h; unfold bottomRecognized; cases hv : e.isSpacer <;> simp
  simp [drawBottomStep, h1, h2, h3, h4]

/-- Filtering a reversed list is reversing the filtered list. -/
theorem filter_reverse_eq {α : Type} (p : α → Bool) (l : List α) :
    l.reverse.filter p = (l.filter p).reverse := by
  induction l with
  | nil => rfl
  | cons a as ih =>
      by_cases hp : p a = true
      · simp [List.filter_cons, hp, List.filter_append, ih]
      · have hpa : p a = false := by
          cases hv : p a with
          | false => rfl
          | true => exact absurd hv hp
        simp [List.filter_cons, hpa, List.filter_append, ih]

/-- C7 (amended): the Zelos drawer's top and bottom walks silently skip
any element whose kind matches none of their branches: the emitted outline
path is identical to the path for the same row with the unrecognized
elements removed, and no failure is ever signalled. -/
theorem claim7_amended (sy : ℚ) (r : Row) :
    drawTop sy { r with elements := r.elements.filter topRecognized } = drawTop sy r ∧
    drawBottom { r with elements := r.elements.filter bottomRecognized } = drawBottom r := by
  constructor
  · unfold drawTop
    simp only
    rw [flatten_map_filter _ _ _ (fun e _ hp => drawTopStep_unrecognized e hp)]
  · unfold drawBottom
    simp only
    rw [filter_reverse_eq bottomRecognized r.elements |>.symm]
    rw [flatten_map_filter _ _ _ (fun e _ hp => drawBottomStep_unrecognized r.xPos e hp)]

/-- C7 (counterexample to the claim as stated): a top row holding a single
field measurable — a kind none of the walk's branches recognize — draws
exactly the same outline as an empty top row: the element is silently
skipped and no error of any kind is raised. -/
theorem claim7_counterexample :
    drawTop 0 { emptyRow with rtype := "top row", elements := [mkField 10 5] } =
      [PathCmd.moveBy 0 0, PathCmd.vRel 0] ∧
    drawTop 0 { emptyRow with rtype := "top row", elements := [] } =
      [PathCmd.moveBy 0 0, PathCmd.vRel 0] := by
  constructor <;> rfl

/-- C10: the Zelos `RightRoundCorner` measurable (type string
`'right round corner'`) is classified as a corner but neither as a rounded
corner (its type does not start with `'round corner'`) nor as a right
corner (its type does not contain `'corner right'`), and consequently no
branch of the drawer's top or bottom walk — in particular no
rounded-corner branch — applies to it. -/
theorem claim10_rightRoundCorner (c : Constants) (x : ℚ) :
    (mkRightRoundCorner c).isCorner = true ∧
    (mkRightRoundCorner c).isRoundedCorner = false ∧
    (mkRightRoundCorner c).isRightCorner = false ∧
    drawTopStep (mkRightRoundCorner c) = [] ∧
    drawBottomStep x (mkRightRoundCorner c) = [] :=
  ⟨rfl, rfl, rfl, rfl, rfl⟩

end Blockly
namespace Blockly

/-- C4 (amended): `shouldStartNewRow_` starts a new row exactly when there
is a preceding visible input and the incoming input is a statement input,
or a value or dummy input while the block is not in inline mode; the first
visible input never starts a new row, and no other input kind does. -/
theorem claim4_amended (isInline : Bool) (input : BInput)
    (lastInput : Option BInput) :
    shouldStartNewRow isInline input lastInput =
      (lastInput.isSome &&
        (decide (input.itype = NEXT_STATEMENT) ||
          ((decide (input.itype = INPUT_VALUE) || decide (input.itype = DUMMY_INPUT))
            && !isInline))) := by
  cases lastInput with
  | none => simp [shouldStartNewRow]
  | some x =>
      by_cases h1 : input.itype = NEXT_STATEMENT
      · simp [shouldStartNewRow, h1]
      · by_cases h2 : input.itype = INPUT_VALUE ∨ input.itype = DUMMY_INPUT
        · rcases h2 with h2 | h2 <;>
            simp [shouldStartNewRow, h1, h2, NEXT_STATEMENT, INPUT_VALUE, DUMMY_INPUT]
        · push_neg at h2
          simp [shouldStartNewRow, h1, h2.1, h2.2]

/-- C4 (counterexample to the claim as stated): a statement input that is
the first visible input does not begin a new row: `shouldStartNewRow_`
returns false for it, and in a block whose first row already holds an icon
the statement measurable lands on that same row. -/
theorem claim4_counterexample :
    shouldStartNewRow false inputStatement none = false ∧
    inputStatement.itype = NEXT_STATEMENT ∧
    ((createRows cDefault blockIconStatement
        (initRenderInfo blockIconStatement)).rows.get? 1).map
      (fun r => r.elements.map (fun e => e.mtype)) =
      some ["icon", "statement input"] := by
  refine ⟨rfl, rfl, ?_⟩
  decide

/-- C5: the tie-break policy of `getInRowSpacing_`: trailing space after an
external-value input is zero, after an inline input is `LARGE_PADDING`,
after a statement input is zero, and every other configuration of
neighbours gets `MEDIUM_PADDING`. -/
theorem claim5_spacing (c : Constants) (p : Measurable) (next : Option Measurable) :
    (p.isInput = true → p.isExternalInput = true →
      getInRowSpacing c (some p) none = 0) ∧
    (p.isInput = true → p.isInlineInput = true →
      getInRowSpacing c (some p) none = c.largePadding) ∧
    (p.isInput = true → p.isStatementInput = true →
      getInRowSpacing c (some p) none = 0) ∧
    (¬(next = none ∧ p.isInput = true ∧
        (p.isExternalInput = true ∨ p.isInlineInput = true ∨ p.isStatementInput = true)) →
      getInRowSpacing c (some p) next = c.mediumPadding) ∧
    getInRowSpacing c none next = c.mediumPadding := by
  refine ⟨?_, ?_, ?_, ?_, rfl⟩
  · intro hi he; simp [getInRowSpacing, hi, he]
  · intro hi hinl
    have hm : p.mtype = "inline input" := by
      have := of_decide_eq_true (by simpa [Measurable.isInlineInput] using hinl)
      exact this
    simp [getInRowSpacing, hi, Measurable.isExternalInput, Measurable.isInlineInput, hm]
  · intro hi hst
    have hm : p.mtype = "statement input" := by
      have := of_decide_eq_true (by simpa [Measurable.isStatementInput] using hst)
      exact this
    simp [getInRowSpacing, hi, Measurable.isExternalInput, Measurable.isInlineInput,
          Measurable.isStatementInput, hm]
  · intro hother
    push_neg at hother
    cases next with
    | some q => simp [getInRowSpacing]
    | none =>
        by_cases hi : p.isInput = true
        · have h3 := hother rfl hi
          simp only [ne_eq, Bool.not_eq_true] at h3
          simp [getInRowSpacing, hi, h3.1, h3.2.1, h3.2.2]
        · have hi' : p.isInput = false := by
            cases hv : p.isInput with
            | false => rfl
            | true => exact absurd hv hi
          simp [getInRowSpacing, hi']

end Blockly
namespace Blockly

/-- C5 (witness): the first case of the spacing policy evaluated at a
concrete external-value input. -/
theorem claim5_witness :
    getInRowSpacing cDefault (some (mkExternalValueInput 10 5)) none = 0 :=
  (claim5_spacing cDefault (mkExternalValueInput 10 5) none).1 rfl rfl

/-- C6: the Zelos `shapeFor`: Boolean-checked value connections receive the
hexagon (triangle in the other override), statement connections receive the
notch, and any other connection type is a fatal configuration error
(`throw Error('Unknown type')`) in both overrides. -/
theorem claim6_shapeFor (conn : Connection) :
    ((conn.ctype = INPUT_VALUE ∨ conn.ctype = OUTPUT_VALUE) →
      checksHave conn "Boolean" = true →
      shapeFor conn = Except.ok ShapeRef.hexagonal ∧
      shapeForAlt conn = Except.ok ShapeRef.triangle) ∧
    ((conn.ctype = PREVIOUS_STATEMENT ∨ conn.ctype = NEXT_STATEMENT) →
      shapeFor conn = Except.ok ShapeRef.notch ∧
      shapeForAlt conn = Except.ok ShapeRef.notch) ∧
    (conn.ctype ≠ INPUT_VALUE → conn.ctype ≠ OUTPUT_VALUE →
      conn.ctype ≠ PREVIOUS_STATEMENT → conn.ctype ≠ NEXT_STATEMENT →
      shapeFor conn = Except.error "Unknown type" ∧
      shapeForAlt conn = Except.error "Unknown type") := by
  refine ⟨?_, ?_, ?_⟩
  · intro hv hb
    constructor
    · simp [shapeFor, hv, hb]
    · simp [shapeForAlt, hv, hb]
  · intro hs
    have hnv : ¬(conn.ctype = INPUT_VALUE ∨ conn.ctype = OUTPUT_VALUE) := by
      rcases hs with h | h <;> rw [h] <;> decide
    constructor
    · simp [shapeFor, hnv, hs]
    · simp [shapeForAlt, hnv, hs]
  · intro h1 h2 h3 h4
    have hnv : ¬(conn.ctype = INPUT_VALUE ∨ conn.ctype = OUTPUT_VALUE) := by
      rintro (h | h) <;> [exact h1 h; exact h2 h]
    have hns : ¬(conn.ctype = PREVIOUS_STATEMENT ∨ conn.ctype = NEXT_STATEMENT) := by
      rintro (h | h) <;> [exact h3 h; exact h4 h]
    constructor
    · simp [shapeFor, hnv, hns]
    · simp [shapeForAlt, hnv, hns]

/-- C6 (witness): a Boolean-checked input-value connection gets the
hexagon/triangle, a next-statement connection gets the notch, and an
output-typed tag outside the four connection kinds is rejected. -/
theorem claim6_witness :
    shapeFor ⟨INPUT_VALUE, some ["Boolean"]⟩ = Except.ok ShapeRef.hexagonal ∧
    shapeForAlt ⟨INPUT_VALUE, some ["Boolean"]⟩ = Except.ok ShapeRef.triangle ∧
    shapeFor ⟨NEXT_STATEMENT, none⟩ = Except.ok ShapeRef.notch ∧
    shapeFor ⟨9, none⟩ = Except.error "Unknown type" :=
  ⟨((claim6_shapeFor ⟨INPUT_VALUE, some ["Boolean"]⟩).1 (Or.inl rfl) (by decide)).1,
   ((claim6_shapeFor ⟨INPUT_VALUE, some ["Boolean"]⟩).1 (Or.inl rfl) (by decide)).2,
   ((claim6_shapeFor ⟨NEXT_STATEMENT, none⟩).2.1 (Or.inr rfl)).1,
   ((claim6_shapeFor ⟨9, none⟩).2.2 (by decide) (by decide) (by decide) (by decide)).1⟩

/-- C1 (counterexample to the claim as stated): on a non-inline block with
one statement input, the statement content row after `measure()` has width
40 while `statementEdge − startX = 8`; the row's width exceeds the claimed
desired width by exactly the statement measurable's width. -/
theorem claim1_counterexample :
    ((measure cDefault blockStatement).rows.get? 2).map
        (fun r => (r.rtype, r.hasStatement, r.hasInlineInput, r.width)) =
      some ("input row", true, false, (40 : ℚ)) ∧
    (measure cDefault blockStatement).statementEdge -
        (measure cDefault blockStatement).startX = 8 ∧
    (40 : ℚ) ≠ 8 := by
  refine ⟨by with_unfolding_all decide, by with_unfolding_all decide, by with_unfolding_all decide⟩

/-- C3 (counterexample to the claim as stated): on a block that has both an
output connection (width 8, hence `startX = 8`) and a statement row, the
alignment pass computes a negative `missingSpace` for the statement row and
shrinks it: its width drops from 40 to 32. -/
theorem claim3_counterexample :
    ((preAlign cDefault blockStatementOutput).rows.get? 1).map (fun r => r.width) =
      some (40 : ℚ) ∧
    ((alignRowElements (preAlign cDefault blockStatementOutput)).rows.get? 1).map
        (fun r => r.width) = some (32 : ℚ) ∧
    (32 : ℚ) < 40 := by
  refine ⟨by with_unfolding_all decide, by with_unfolding_all decide, by with_unfolding_all decide⟩

/-- C8 (counterexample to the claim as stated): calling `measure()` a
second time on the same `RenderInfo` does not reproduce the first call's
row geometry — on a block with no inputs the row list grows from 3 rows to
9, because `createRows_` appends to the existing row list. -/
theorem claim8_counterexample :
    (measureState cDefault blockTrivial
        (measureState cDefault blockTrivial (initRenderInfo blockTrivial))).rows.length = 9 ∧
    (measureState cDefault blockTrivial (initRenderInfo blockTrivial)).rows.length = 3 ∧
    (9 : Nat) ≠ 3 := by
  refine ⟨by with_unfolding_all decide, by with_unfolding_all decide, by with_unfolding_all decide⟩

end Blockly
namespace Blockly

/-- The running-sum property for row y positions: the first row sits at the
cursor and each later row at the previous row's position plus its height. -/
def yChain : ℚ → List Row → Prop
  | _, [] => True
  | y, r :: rest => r.yPos = y ∧ yChain (y + r.height) rest

/-- The running-sum property for element x positions within a row. -/
def xChain : ℚ → List Measurable → Prop
  | _, [] => True
  | x, e :: rest => e.xPos = x ∧ xChain (x + e.width) rest

/-- The element walk of `finalize_` produces a left-to-right running sum of
x positions. -/
theorem finalizeElems_xChain (ctr : ℚ) (l : List Measurable) :
    ∀ x, xChain x (finalizeElems ctr x l) := by
  induction l with
  | nil => intro x; trivial
  | cons e rest ih =>
      intro x
      refine ⟨rfl, ?_⟩
      simpa using ih (x + e.width)

/-- `finalizeRow` keeps a row's height. -/
theorem finalizeRow_height (startX y : ℚ) (r : Row) :
    (finalizeRow startX y r).height = r.height := rfl

/-- The row walk of `finalize_` produces a top-to-bottom running sum of
y positions. -/
theorem finalizeRowsGo_yChain (startX : ℚ) (l : List Row) :
    ∀ y, yChain y (finalizeRowsGo startX y l).1 := by
  induction l with
  | nil => intro y; trivial
  | cons r rest ih =>
      intro y
      refine ⟨rfl, ?_⟩
      simpa [finalizeRowsGo, finalizeRow] using ih (y + r.height)

/-- The final y cursor of the row walk is the initial cursor plus the sum
of the row heights. -/
theorem finalizeRowsGo_snd (startX : ℚ) (l : List Row) :
    ∀ y, (finalizeRowsGo startX y l).2 = y + (l.map Row.height).sum := by
  induction l with
  | nil => intro y; simp [finalizeRowsGo]
  | cons r rest ih =>
      intro y
      simp [finalizeRowsGo, ih (y + r.height), add_assoc]

/-- The row walk preserves the multiset of row heights positionally. -/
theorem finalizeRowsGo_heights (startX : ℚ) (l : List Row) :
    ∀ y, ((finalizeRowsGo startX y l).1).map Row.height = l.map Row.height := by
  induction l with
  | nil => intro y; rfl
  | cons r rest ih =>
      intro y
      simp [finalizeRowsGo, finalizeRow, ih (y + r.height)]

/-- Each row emitted by the row walk has `xPos = startX` and its elements
in a left-to-right running sum starting there. -/
theorem finalizeRowsGo_get (startX : ℚ) (l : List Row) :
    ∀ y i r', ((finalizeRowsGo startX y l).1).get? i = some r' →
      r'.xPos = startX ∧ xChain r'.xPos r'.elements := by
  induction l with
  | nil => intro y i r' h; simp [finalizeRowsGo] at h
  | cons r rest ih =>
      intro y i r' h
      cases i with
      | zero =>
          simp [finalizeRowsGo] at h
          subst h
          exact ⟨rfl, finalizeElems_xChain _ _ _⟩
      | succ n =>
          simp [finalizeRowsGo] at h
          exact ih (y + r.height) n r' (by simpa using h)

/-- The block height recorded by `finalize_` is the sum of the heights of
the rows it laid out. -/
theorem finalize_height_sum (st : RenderInfo) :
    (finalize st).height = (((finalize st).rows).map Row.height).sum := by
  show (finalizeRowsGo st.startX 0 st.rows).2 =
    ((finalizeRowsGo st.startX 0 st.rows).1.map Row.height).sum
  rw [finalizeRowsGo_snd, finalizeRowsGo_heights]
  simp

/-- C2: after `finalize_`, row ``yPos`` values form the running sum of row
heights starting at 0, `RenderInfo.height` is the sum of all row heights,
and within every row the elements' ``xPos`` values form the running sum of
element widths starting at the row's own ``xPos`` (which is `startX`). -/
theorem claim2_positions (c : Constants) (b : Block) :
    yChain 0 (measure c b).rows ∧
    (measure c b).height = (((measure c b).rows).map Row.height).sum ∧
    (∀ i r, (measure c b).rows.get? i = some r →
      r.xPos = (measure c b).startX ∧ xChain r.xPos r.elements) := by
  refine ⟨?_, ?_, ?_⟩
  · exact finalizeRowsGo_yChain _ _ 0
  · exact finalize_height_sum _
  · intro i r h
    exact finalizeRowsGo_get _ _ 0 i r h

/-- C2 (witness): the position invariants evaluated on the concrete
one-statement block, including the first row extracted by index. -/
theorem claim2_witness :
    yChain 0 (measure cDefault blockStatement).rows ∧
    (((measure cDefault blockStatement).rows.get? 0).getD emptyRow).xPos =
      (measure cDefault blockStatement).startX :=
  ⟨(claim2_positions cDefault blockStatement).1,
   ((claim2_positions cDefault blockStatement).2.2 0 _
      (by with_unfolding_all decide)).1⟩

end Blockly
namespace Blockly

/-- The spacing walk emits exactly two elements per original element. -/
theorem spacedElems_length (c : Constants) (l : List Measurable) :
    (spacedElems c l).length = 2 * l.length := by
  induction l with
  | nil => rfl
  | cons e rest ih =>
      cases rest with
      | nil => rfl
      | cons e' rest' =>
          simp only [spacedElems, List.length_cons] at ih ⊢
          omega

/-- The spacing walk of a nonempty list ends with an in-row spacer. -/
theorem spacedElems_trailing (c : Constants) (l : List Measurable) (h : l ≠ []) :
    ∃ l₀ w, spacedElems c l = l₀ ++ [mkInRowSpacer w] := by
  induction l with
  | nil => exact absurd rfl h
  | cons e rest ih =>
      cases rest with
      | nil =>
          exact ⟨[e], getInRowSpacing c (some e) none, rfl⟩
      | cons e' rest' =>
          obtain ⟨l₀, w, hw⟩ := ih (by simp)
          exact ⟨e :: mkInRowSpacer (getInRowSpacing c (some e) (some e')) :: l₀, w,
            by simp [spacedElems, hw]⟩

/-- The last entry of a list ending in a singleton append. -/
theorem getLast?_snoc {α : Type} (l : List α) (a : α) :
    (l ++ [a]).getLast? = some a := by
  induction l with
  | nil => rfl
  | cons x xs ih =>
      rw [List.cons_append]
      cases hxs : xs ++ [a] with
      | nil => exact absurd hxs (by simp)
      | cons y ys =>
          rw [List.getLast?_cons_cons, ← hxs, ih]

/-- C9: `addElemSpacing_` appends a spacer after every element of every
row (top and bottom rows included), and adds a leading spacer exactly for
rows that are neither the top row nor the bottom row; consequently every
row that had any element — and every input-type row even when empty —
ends with an in-row spacer, available to the alignment pass. -/
theorem claim9_spacers (c : Constants) (st : RenderInfo) (i : Nat) (r : Row)
    (h : st.rows.get? i = some r) :
    ∃ r', (addElemSpacing c st).rows.get? i = some r' ∧
      r'.elements.length = 2 * r.elements.length +
        (if r.rtype = "top row" ∨ r.rtype = "bottom row" then 0 else 1) ∧
      (r.elements ≠ [] → ∃ w, r'.elements.getLast? = some (mkInRowSpacer w)) ∧
      (¬(r.rtype = "top row" ∨ r.rtype = "bottom row") →
        ∃ w, r'.elements.getLast? = some (mkInRowSpacer w)) := by
  refine ⟨spaceRow c r, ?_, ?_, ?_, ?_⟩
  · show (st.rows.map (spaceRow c)).get? i = _
    simp only [List.get?_eq_getElem?] at h ⊢
    simp [List.getElem?_map, h]
  · by_cases htb : r.rtype = "top row" ∨ r.rtype = "bottom row"
    · have hcond : ¬(r.rtype ≠ "top row" ∧ r.rtype ≠ "bottom row") := by
        rcases htb with h1 | h1 <;> simp [h1]
      simp [spaceRow, hcond, htb, spacedElems_length]
    · have hcond : r.rtype ≠ "top row" ∧ r.rtype ≠ "bottom row" := by
        push_neg at htb; exact htb
      simp [spaceRow, hcond, htb, spacedElems_length]
  · intro hne
    obtain ⟨l₀, w, hw⟩ := spacedElems_trailing c r.elements hne
    refine ⟨w, ?_⟩
    by_cases hcond : r.rtype ≠ "top row" ∧ r.rtype ≠ "bottom row"
    · show ((if r.rtype ≠ "top row" ∧ r.rtype ≠ "bottom row" then
          [mkInRowSpacer (getInRowSpacing c none r.elements.head?)] else []) ++
            spacedElems c r.elements).getLast? = _
      rw [if_pos hcond, hw, List.singleton_append, ← List.cons_append]
      exact getLast?_snoc _ _
    · show ((if r.rtype ≠ "top row" ∧ r.rtype ≠ "bottom row" then
          [mkInRowSpacer (getInRowSpacing c none r.elements.head?)] else []) ++
            spacedElems c r.elements).getLast? = _
      rw [if_neg hcond, hw, List.nil_append]
      exact getLast?_snoc _ _
  · intro htb
    have hcond : r.rtype ≠ "top row" ∧ r.rtype ≠ "bottom row" := by
      push_neg at htb; exact htb
    cases he : r.elements with
    | nil =>
        refine ⟨getInRowSpacing c none none, ?_⟩
        simp [spaceRow, hcond, he, spacedElems]
    | cons e rest =>
        obtain ⟨l₀, w, hw⟩ := spacedElems_trailing c r.elements (by simp [he])
        refine ⟨w, ?_⟩
        show ((if r.rtype ≠ "top row" ∧ r.rtype ≠ "bottom row" then
            [mkInRowSpacer (getInRowSpacing c none r.elements.head?)] else []) ++
              spacedElems c r.elements).getLast? = _
        rw [if_pos hcond, hw, List.singleton_append, ← List.cons_append]
        exact getLast?_snoc _ _

/-- C9 (witness): the spacer invariants instantiated on the statement row
of the concrete one-statement block. -/
theorem claim9_witness :
    ∃ r', (addElemSpacing cDefault
        (createRows cDefault blockStatement (initRenderInfo blockStatement))).rows.get? 1 =
          some r' ∧
      r'.elements.length = 2 * (((createRows cDefault blockStatement
          (initRenderInfo blockStatement)).rows.get? 1).getD emptyRow).elements.length +
        (if (((createRows cDefault blockStatement
            (initRenderInfo blockStatement)).rows.get? 1).getD emptyRow).rtype = "top row" ∨
            (((createRows cDefault blockStatement
            (initRenderInfo blockStatement)).rows.get? 1).getD emptyRow).rtype = "bottom row"
          then 0 else 1) ∧
      ((((createRows cDefault blockStatement
          (initRenderInfo blockStatement)).rows.get? 1).getD emptyRow).elements ≠ [] →
        ∃ w, r'.elements.getLast? = some (mkInRowSpacer w)) ∧
      (¬((((createRows cDefault blockStatement
          (initRenderInfo blockStatement)).rows.get? 1).getD emptyRow).rtype = "top row" ∨
          (((createRows cDefault blockStatement
          (initRenderInfo blockStatement)).rows.get? 1).getD emptyRow).rtype = "bottom row") →
        ∃ w, r'.elements.getLast? = some (mkInRowSpacer w)) :=
  claim9_spacers cDefault _ 1 _ (by with_unfolding_all decide)

end Blockly
namespace Blockly

/-- The row interleaving of `addRowSpacing_` turns `n ≥ 1` rows into
`2n − 1` rows. -/
theorem interleaveSpacerRows_length (c : Constants) (w sx : ℚ) (l : List Row)
    (h : l ≠ []) :
    (interleaveSpacerRows c w sx l).length + 1 = 2 * l.length := by
  induction l with
  | nil => exact absurd rfl h
  | cons r rest ih =>
      cases rest with
      | nil => rfl
      | cons r' rest' =>
          have := ih (by simp)
          simp only [interleaveSpacerRows, List.length_cons] at this ⊢
          omega

/-- The row walk of `finalize_` preserves the number of rows. -/
theorem finalizeRowsGo_length (startX : ℚ) (l : List Row) :
    ∀ y, ((finalizeRowsGo startX y l).1).length = l.length := by
  induction l with
  | nil => intro y; rfl
  | cons r rest ih =>
      intro y
      simp [finalizeRowsGo, ih (y + r.height)]

/-- The input loop of `createRows_` only ever appends to the row list. -/
theorem createRowsLoop_shape (isInline : Bool) (inputs : List BInput) :
    ∀ lastInput activeRow rows, ∃ suf,
      (createRowsLoop isInline inputs lastInput activeRow rows).1 = rows ++ suf := by
  induction inputs with
  | nil => intro lastInput activeRow rows; exact ⟨[], by simp [createRowsLoop]⟩
  | cons input rest ih =>
      intro lastInput activeRow rows
      by_cases hv : input.visible = true
      · by_cases hs : shouldStartNewRow isInline input lastInput = true
        · obtain ⟨suf, hsuf⟩ := ih (some input)
            (addInput isInline input
              { emptyInputRow with
                  elements := emptyInputRow.elements ++
                    input.fields.map (fun f => mkField f.width f.height) })
            (rows ++ [activeRow])
          refine ⟨[activeRow] ++ suf, ?_⟩
          have : (createRowsLoop isInline (input :: rest) lastInput activeRow rows).1 =
              (createRowsLoop isInline rest (some input)
                (addInput isInline input
                  { emptyInputRow with
                      elements := emptyInputRow.elements ++
                        input.fields.map (fun f => mkField f.width f.height) })
                (rows ++ [activeRow])).1 := by
            simp [createRowsLoop, hv, hs]
          rw [this, hsuf]
          simp
        · have hs' : shouldStartNewRow isInline input lastInput = false := by
            cases hval : shouldStartNewRow isInline input lastInput with
            | false => rfl
            | true => exact absurd hval hs
          obtain ⟨suf, hsuf⟩ := ih (some input)
            (addInput isInline input
              { activeRow with
                  elements := activeRow.elements ++
                    input.fields.map (fun f => mkField f.width f.height) }) rows
          refine ⟨suf, ?_⟩
          have : (createRowsLoop isInline (input :: rest) lastInput activeRow rows).1 =
              (createRowsLoop isInline rest (some input)
                (addInput isInline input
                  { activeRow with
                      elements := activeRow.elements ++
                        input.fields.map (fun f => mkField f.width f.height) })
                rows).1 := by
            simp [createRowsLoop, hv, hs']
          rw [this, hsuf]
      · have hv' : input.visible = false := by
          cases hval : input.visible with
          | false => rfl
          | true => exact absurd hval hv
        obtain ⟨suf, hsuf⟩ := ih lastInput activeRow rows
        exact ⟨suf, by simpa [createRowsLoop, hv'] using hsuf⟩

/-- `createRowsFinish` extends the looped row list. -/
theorem createRowsFinish_shape (c : Constants) (st : RenderInfo)
    (looped : List Row × Row) :
    ∃ suf, createRowsFinish c st looped = looped.1 ++ suf := by
  unfold createRowsFinish
  by_cases h : ((if st.isCollapsed = true then
      { looped.2 with hasJaggedEdge := true
                      elements := looped.2.elements ++ [mkJaggedEdge c] }
    else looped.2) : Row).elements.length ≠ 0
  · exact ⟨_, by rw [if_pos h]⟩
  · exact ⟨[], by rw [if_neg h]; simp⟩

/-- The rows of `createRows_`: the incoming rows, then the top row, then
the rows produced by the input loop, then the bottom row. -/
theorem createRows_rows (c : Constants) (b : Block) (st : RenderInfo) :
    ∃ suf, (createRows c b st).rows =
      st.rows ++ [populateTopRow b] ++ suf ++ [populateBottomRow b] := by
  obtain ⟨suf1, hs1⟩ := createRowsLoop_shape st.isInline b.inputList none
    (createRowsActive b st) (st.rows ++ [populateTopRow b])
  obtain ⟨suf2, hs2⟩ := createRowsFinish_shape c st
    (createRowsLoop st.isInline b.inputList none (createRowsActive b st)
      (st.rows ++ [populateTopRow b]))
  refine ⟨suf1 ++ suf2, ?_⟩
  show createRowsFinish c st _ ++ [populateBottomRow b] = _
  rw [hs2, hs1]
  simp [List.append_assoc]

/-- `createRows_` adds at least the top and bottom rows to the list. -/
theorem createRows_length (c : Constants) (b : Block) (st : RenderInfo) :
    st.rows.length + 2 ≤ (createRows c b st).rows.length := by
  obtain ⟨suf, hs⟩ := createRows_rows c b st
  rw [hs]
  simp only [List.length_append, List.length_cons, List.length_nil]
  omega

end Blockly
namespace Blockly

/-- `computeBounds_` does not change the number of rows. -/
theorem computeBounds_rows_length (st : RenderInfo) :
    (computeBounds st).rows.length = st.rows.length := by
  cases h : st.outputConnection <;> simp [computeBounds, measuredRows, h]

/-- One `measure()` call leaves `2n − 1` rows, where `n` is the number of
rows present right after `createRows_`. -/
theorem measureState_length (c : Constants) (b : Block) (st : RenderInfo) :
    (measureState c b st).rows.length + 1 = 2 * (createRows c b st).rows.length := by
  have hlen : (alignRowElements (computeBounds
      (addElemSpacing c (createRows c b st)))).rows.length
      = (createRows c b st).rows.length := by
    show ((computeBounds (addElemSpacing c (createRows c b st))).rows.map _).length = _
    rw [List.length_map, computeBounds_rows_length]
    show ((createRows c b st).rows.map _).length = _
    rw [List.length_map]
  have hne : (alignRowElements (computeBounds
      (addElemSpacing c (createRows c b st)))).rows ≠ [] := by
    intro hnil
    have h2 := createRows_length c b st
    rw [hnil] at hlen
    simp only [List.length_nil] at hlen
    omega
  show ((finalizeRowsGo _ 0 (interleaveSpacerRows c _ _ _)).1).length + 1 = _
  rw [finalizeRowsGo_length, interleaveSpacerRows_length _ _ _ _ hne, hlen]

/-- C8 (amended): `measure()` is a pure function of the block snapshot, so
re-measuring an unchanged block through a fresh `RenderInfo` yields the
same geometry; but `measure()` is not idempotent on a single `RenderInfo`:
a second call on the same instance strictly grows the row list, because
`createRows_` appends to the rows already present. -/
theorem claim8_amended (c : Constants) (b : Block) :
    (measureState c b (initRenderInfo b)).rows.length <
      (measureState c b (measureState c b (initRenderInfo b))).rows.length := by
  have h1 := measureState_length c b (initRenderInfo b)
  have h2 := measureState_length c b (measureState c b (initRenderInfo b))
  have g1 := createRows_length c b (initRenderInfo b)
  have g2 := createRows_length c b (measureState c b (initRenderInfo b))
  have hinit : (initRenderInfo b).rows.length = 0 := rfl
  omega

end Blockly
namespace Blockly

/-- The width-irrelevant shape of a measurable: its kind tag, input flag
and height. -/
def mshape (e : Measurable) : String × Bool × ℚ := (e.mtype, e.isInput, e.height)

/-- A max-fold never drops below its seed. -/
theorem le_foldl_max (f : Row → ℚ) (l : List Row) :
    ∀ a : ℚ, a ≤ l.foldl (fun acc r => max acc (f r)) a := by
  induction l with
  | nil => intro a; exact le_refl a
  | cons r rest ih => intro a; exact le_trans (le_max_left a (f r)) (ih _)

/-- A max-fold dominates every member's value. -/
theorem foldl_max_of_mem (f : Row → ℚ) (l : List Row) (x : Row) (hx : x ∈ l) :
    ∀ a : ℚ, f x ≤ l.foldl (fun acc r => max acc (f r)) a := by
  induction l with
  | nil => cases hx
  | cons r rest ih =>
      intro a
      simp only [List.foldl_cons]
      rcases List.mem_cons.mp hx with hx1 | hx2
      · rw [hx1]; exact le_trans (le_max_right a (f r)) (le_foldl_max f rest _)
      · exact ih hx2 _

/-- The statement-conditional max-fold never drops below its seed. -/
theorem le_foldl_cond (g : Row → ℚ) (l : List Row) :
    ∀ a : ℚ, a ≤ l.foldl
      (fun acc r => if r.hasStatement then max acc (g r) else acc) a := by
  induction l with
  | nil => intro a; exact le_refl a
  | cons r rest ih =>
      intro a
      by_cases hs : r.hasStatement = true
      · simpa [hs] using le_trans (le_max_left a (g r)) (ih _)
      · have hs' : r.hasStatement = false := by
          cases hv : r.hasStatement with
          | false => rfl
          | true => exact absurd hv hs
        simpa [hs'] using ih a
/-- The statement-conditional max-fold dominates every statement member. -/
theorem foldl_cond_of_mem (g : Row → ℚ) (l : List Row) (x : Row) (hx : x ∈ l)
    (hs : x.hasStatement = true) :
    ∀ a : ℚ, g x ≤ l.foldl
      (fun acc r => if r.hasStatement then max acc (g r) else acc) a := by
  induction l with
  | nil => cases hx
  | cons r rest ih =>
      intro a
      simp only [List.foldl_cons]
      rcases List.mem_cons.mp hx with hx1 | hx2
      · rw [hx1] at hs ⊢
        rw [if_pos hs]
        exact le_trans (le_max_right a (g r)) (le_foldl_cond g rest _)
      · by_cases hr : r.hasStatement = true
        · rw [if_pos hr]; exact ih hx2 _
        · rw [if_neg hr]; exact ih hx2 _

/-- `setStatementEdge` changes nothing but the `statementEdge` field. -/
theorem setStatementEdge_fields (se : ℚ) (r : Row) :
    (setStatementEdge se r).elements = r.elements ∧
    (setStatementEdge se r).width = r.width ∧
    (setStatementEdge se r).hasStatement = r.hasStatement ∧
    (setStatementEdge se r).hasInlineInput = r.hasInlineInput ∧
    (setStatementEdge se r).rtype = r.rtype := by
  unfold setStatementEdge
  split_ifs <;> exact ⟨rfl, rfl, rfl, rfl, rfl⟩

/-- The rows of `computeBounds_` are the measured rows with the statement
edge recorded on statement rows. -/
theorem computeBounds_rows (st : RenderInfo) :
    (computeBounds st).rows =
      (measuredRows st).map (setStatementEdge (computedStatementEdge st)) := by
  cases h : st.outputConnection <;> simp [computeBounds, h]

/-- `computeBounds_` records the computed statement edge. -/
theorem computeBounds_statementEdge (st : RenderInfo) :
    (computeBounds st).statementEdge = computedStatementEdge st := by
  cases h : st.outputConnection <;> simp [computeBounds, h]

/-- Without an output connection, `computeBounds_` leaves `startX` alone
and records the block width unchanged. -/
theorem computeBounds_none (st : RenderInfo) (h : st.outputConnection = none) :
    (computeBounds st).startX = st.startX ∧
    (computeBounds st).width = computedBlockWidth st := by
  constructor <;> simp [computeBounds, h]

/-- Every row produced by `addElemSpacing_` is empty or ends with an
in-row spacer. -/
theorem spaceRow_elem_shape (c : Constants) (r : Row) :
    (spaceRow c r).elements = [] ∨
      ∃ l₀ w, (spaceRow c r).elements = l₀ ++ [mkInRowSpacer w] := by
  by_cases hcond : r.rtype ≠ "top row" ∧ r.rtype ≠ "bottom row"
  · right
    cases he : r.elements with
    | nil =>
        refine ⟨[], getInRowSpacing c none none, ?_⟩
        simp [spaceRow, hcond, he, spacedElems]
    | cons e rest =>
        obtain ⟨l₀, w, hw⟩ := spacedElems_trailing c r.elements (by simp [he])
        refine ⟨mkInRowSpacer (getInRowSpacing c none r.elements.head?) :: l₀, w, ?_⟩
        show (if r.rtype ≠ "top row" ∧ r.rtype ≠ "bottom row" then
            [mkInRowSpacer (getInRowSpacing c none r.elements.head?)] else []) ++
              spacedElems c r.elements = _
        rw [if_pos hcond, hw]
        simp
  · cases he : r.elements with
    | nil =>
        left
        show (if r.rtype ≠ "top row" ∧ r.rtype ≠ "bottom row" then
            [mkInRowSpacer (getInRowSpacing c none r.elements.head?)] else []) ++
              spacedElems c r.elements = []
        rw [if_neg hcond, he]
        rfl
    | cons e rest =>
        right
        obtain ⟨l₀, w, hw⟩ := spacedElems_trailing c r.elements (by simp [he])
        refine ⟨l₀, w, ?_⟩
        show (if r.rtype ≠ "top row" ∧ r.rtype ≠ "bottom row" then
            [mkInRowSpacer (getInRowSpacing c none r.elements.head?)] else []) ++
              spacedElems c r.elements = _
        rw [if_neg hcond, hw]
        rfl

/-- `addAlignmentPadding_` on a row whose element list ends with a spacer:
exactly that trailing spacer grows, and the row width grows with it. -/
theorem addAlignmentPadding_trailing (r : Row) (missing : ℚ)
    (l₀ : List Measurable) (wsp : ℚ)
    (h : r.elements = l₀ ++ [mkInRowSpacer wsp]) :
    addAlignmentPadding r missing =
      { r with elements := l₀ ++ [mkInRowSpacer (wsp + missing)],
               width := r.width + missing } := by
  unfold addAlignmentPadding
  rw [h]
  have hrev : (l₀ ++ [mkInRowSpacer wsp]).reverse =
      mkInRowSpacer wsp :: l₀.reverse := by simp
  rw [hrev]
  have hg : growFirstSpacer missing (mkInRowSpacer wsp :: l₀.reverse) =
      (mkInRowSpacer (wsp + missing) :: l₀.reverse, true) := by
    simp [growFirstSpacer, mkInRowSpacer, Measurable.isSpacer]
  rw [hg]
  simp

/-- The last-input width ignores a trailing in-row spacer. -/
theorem findInputWidth_spacer (w : ℚ) (l : List Measurable) :
    findInputWidth ((l ++ [mkInRowSpacer w]).reverse) = findInputWidth l.reverse := by
  have hrev : (l ++ [mkInRowSpacer w]).reverse = mkInRowSpacer w :: l.reverse := by simp
  rw [hrev]
  simp [findInputWidth, mkInRowSpacer, Measurable.isInput]

/-- `alignRowElements_` leaves a row alone, or — only when the row has no
inline input — applies `addAlignmentPadding_` with the computed missing
space. -/
theorem alignRow_eq_or (w sx se : ℚ) (r : Row) :
    alignRow w sx se r = r ∨
    (r.hasInlineInput = false ∧
      alignRow w sx se r = addAlignmentPadding r
        (((if r.hasStatement then se else w) - sx) -
          (if r.hasStatement then r.width - rowLastInputWidth r else r.width))) := by
  by_cases hinl : r.hasInlineInput = true
  · left
    simp [alignRow, hinl]
  · have hinl' : r.hasInlineInput = false := by
      cases hv : r.hasInlineInput with
      | false => rfl
      | true => exact absurd hv hinl
    by_cases hm : (((if r.hasStatement then se else w) - sx) -
        (if r.hasStatement then r.width - rowLastInputWidth r else r.width)) ≠ 0
    · right
      exact ⟨hinl', by simp [alignRow, hinl', hm]⟩
    · left
      simp only [ne_eq, not_not] at hm
      simp [alignRow, hinl', hm]

end Blockly
namespace Blockly

/-- Alignment of a row whose element list is empty or ends with a spacer,
and whose current width does not exceed the desired width: the width never
shrinks, the elements keep their kinds, input flags and heights, and only
the last element's width can change. -/
theorem alignRow_c3 (w sx se : ℚ) (r : Row)
    (hshape : r.elements = [] ∨ ∃ l₀ wsp, r.elements = l₀ ++ [mkInRowSpacer wsp])
    (hmono : r.hasInlineInput = false →
      (if r.hasStatement then r.width - rowLastInputWidth r else r.width) ≤
        (if r.hasStatement then se else w) - sx) :
    r.width ≤ (alignRow w sx se r).width ∧
    (alignRow w sx se r).elements.map mshape = r.elements.map mshape ∧
    ((alignRow w sx se r).elements.dropLast).map Measurable.width =
      (r.elements.dropLast).map Measurable.width := by
  rcases alignRow_eq_or w sx se r with heq | ⟨hinl, heq⟩
  · rw [heq]
    exact ⟨le_refl _, rfl, rfl⟩
  · rcases hshape with hnil | ⟨l₀, wsp, hdecomp⟩
    · have hpad : addAlignmentPadding r
          (((if r.hasStatement then se else w) - sx) -
            (if r.hasStatement then r.width - rowLastInputWidth r else r.width)) = r := by
        simp [addAlignmentPadding, hnil, growFirstSpacer]
      rw [heq, hpad]
      exact ⟨le_refl _, rfl, rfl⟩
    · rw [heq, addAlignmentPadding_trailing r _ l₀ wsp hdecomp]
      have hm := hmono hinl
      refine ⟨?_, ?_, ?_⟩
      · show r.width ≤ r.width + _
        have : (0 : ℚ) ≤ ((if r.hasStatement then se else w) - sx) -
            (if r.hasStatement then r.width - rowLastInputWidth r else r.width) := by
          linarith [hm]
        linarith [this]
      · show (l₀ ++ [mkInRowSpacer _]).map mshape = r.elements.map mshape
        rw [hdecomp]
        simp [mshape, mkInRowSpacer]
      · show ((l₀ ++ [mkInRowSpacer _]).dropLast).map Measurable.width =
          (r.elements.dropLast).map Measurable.width
        rw [hdecomp, List.dropLast_concat, List.dropLast_concat]

/-- Every row sitting in the state after `computeBounds_` is a measured,
statement-edge-adjusted image of a spaced `createRows_` row. -/
theorem preAlign_row_mem (c : Constants) (b : Block) (r : Row)
    (hr : r ∈ (preAlign c b).rows) :
    ∃ r0, r0 ∈ (createRows c b (initRenderInfo b)).rows ∧
      r = setStatementEdge
        (computedStatementEdge (addElemSpacing c (createRows c b (initRenderInfo b))))
        (rowMeasure (spaceRow c r0)) := by
  unfold preAlign at hr
  rw [computeBounds_rows] at hr
  obtain ⟨rm, hrm, hr2⟩ := List.mem_map.mp hr
  unfold measuredRows at hrm
  obtain ⟨rs, hrs, hrm2⟩ := List.mem_map.mp hrm
  have hspace : (addElemSpacing c (createRows c b (initRenderInfo b))).rows =
      ((createRows c b (initRenderInfo b)).rows).map (spaceRow c) := rfl
  rw [hspace] at hrs
  obtain ⟨r0, hr0, hrs2⟩ := List.mem_map.mp hrs
  refine ⟨r0, hr0, ?_⟩
  rw [← hr2, ← hrm2, ← hrs2]

/-- C3 (amended): the alignment pass adds space only by growing a row's
last spacer, never touching any other element; when the block has no
output connection, `missingSpace` is never negative and no row's width is
ever decreased.  (With an output connection and a statement row the widest
statement row is shrunk — see the counterexample.) -/
theorem claim3_amended (c : Constants) (b : Block) (hout : b.outputWidth = none)
    (i : Nat) (r : Row) (h : (preAlign c b).rows.get? i = some r) :
    ∃ r', (alignRowElements (preAlign c b)).rows.get? i = some r' ∧
      r.width ≤ r'.width ∧
      r'.elements.map mshape = r.elements.map mshape ∧
      (r'.elements.dropLast).map Measurable.width =
        (r.elements.dropLast).map Measurable.width := by
  have hmem : r ∈ (preAlign c b).rows := by
    have := List.get?_mem h
    exact this
  obtain ⟨r0, hr0, hform⟩ := preAlign_row_mem c b r hmem
  have hfields := setStatementEdge_fields
    (computedStatementEdge (addElemSpacing c (createRows c b (initRenderInfo b))))
    (rowMeasure (spaceRow c r0))
  have helem : r.elements = (spaceRow c r0).elements := by
    rw [hform]
    exact hfields.1
  have hwidth : r.width = (rowMeasure (spaceRow c r0)).width := by
    rw [hform]
    exact hfields.2.1
  have hstmt : r.hasStatement = (rowMeasure (spaceRow c r0)).hasStatement := by
    rw [hform]
    exact hfields.2.2.1
  have hliw : rowLastInputWidth r = rowLastInputWidth (rowMeasure (spaceRow c r0)) := by
    unfold rowLastInputWidth
    rw [helem]
    rfl
  have houtconn : (addElemSpacing c
      (createRows c b (initRenderInfo b))).outputConnection = none := by
    show (b.outputWidth.map mkOutputConnection) = none
    rw [hout]
    rfl
  have hsx : (preAlign c b).startX = 0 := by
    unfold preAlign
    rw [(computeBounds_none _ houtconn).1]
    rfl
  have hw : (preAlign c b).width =
      computedBlockWidth (addElemSpacing c (createRows c b (initRenderInfo b))) := by
    unfold preAlign
    exact (computeBounds_none _ houtconn).2
  have hse : (preAlign c b).statementEdge =
      computedStatementEdge (addElemSpacing c (createRows c b (initRenderInfo b))) := by
    unfold preAlign
    exact computeBounds_statementEdge _
  have hmmem : rowMeasure (spaceRow c r0) ∈
      measuredRows (addElemSpacing c (createRows c b (initRenderInfo b))) := by
    unfold measuredRows
    refine List.mem_map.mpr ⟨spaceRow c r0, ?_, rfl⟩
    show spaceRow c r0 ∈ ((createRows c b (initRenderInfo b)).rows).map (spaceRow c)
    exact List.mem_map.mpr ⟨r0, hr0, rfl⟩
  refine ⟨alignRow (preAlign c b).width (preAlign c b).startX
      (preAlign c b).statementEdge r, ?_, ?_⟩
  · show ((preAlign c b).rows.map _).get? i = _
    simp only [List.get?_eq_getElem?] at h ⊢
    simp [List.getElem?_map, h]
  · apply alignRow_c3
    · rw [helem]
      exact spaceRow_elem_shape c r0
    · intro hinl
      by_cases hst : r.hasStatement = true
      · rw [if_pos hst, if_pos hst, hsx, hse, hwidth, hliw]
        have hstm : (rowMeasure (spaceRow c r0)).hasStatement = true := by
          rw [← hstmt]; exact hst
        have := foldl_cond_of_mem (fun rr => rr.width - rowLastInputWidth rr) _
          (rowMeasure (spaceRow c r0)) hmmem hstm 0
        unfold computedStatementEdge
        linarith [this]
      · have hst' : r.hasStatement = false := by
          cases hv : r.hasStatement with
          | false => rfl
          | true => exact absurd hv hst
        rw [if_neg (by simp [hst']), if_neg (by simp [hst']), hsx, hw, hwidth]
        have := foldl_max_of_mem Row.width _
          (rowMeasure (spaceRow c r0)) hmmem 0
        unfold computedBlockWidth
        linarith [this]

/-- C3 (witness): the amended statement instantiated on the statement row
of the concrete no-output statement block. -/
theorem claim3_witness :
    ∃ r', (alignRowElements (preAlign cDefault blockStatement)).rows.get? 2 = some r' ∧
      (((preAlign cDefault blockStatement).rows.get? 2).getD emptyRow).width ≤ r'.width ∧
      r'.elements.map mshape =
        (((preAlign cDefault blockStatement).rows.get? 2).getD emptyRow).elements.map mshape ∧
      (r'.elements.dropLast).map Measurable.width =
        ((((preAlign cDefault blockStatement).rows.get? 2).getD
          emptyRow).elements.dropLast).map Measurable.width :=
  claim3_amended cDefault blockStatement rfl 2 _ (by with_unfolding_all decide)

end Blockly
namespace Blockly

/-- `addAlignmentPadding_` never changes a row's flags or type tag. -/
theorem addAlignmentPadding_pres (r : Row) (m : ℚ) :
    (addAlignmentPadding r m).hasStatement = r.hasStatement ∧
    (addAlignmentPadding r m).hasInlineInput = r.hasInlineInput ∧
    (addAlignmentPadding r m).rtype = r.rtype := by
  simp only [addAlignmentPadding]
  split <;> exact ⟨rfl, rfl, rfl⟩

/-- Alignment never changes a row's flags or type tag. -/
theorem alignRow_pres (w sx se : ℚ) (r : Row) :
    (alignRow w sx se r).hasStatement = r.hasStatement ∧
    (alignRow w sx se r).hasInlineInput = r.hasInlineInput ∧
    (alignRow w sx se r).rtype = r.rtype := by
  rcases alignRow_eq_or w sx se r with heq | ⟨_, heq⟩
  · rw [heq]; exact ⟨rfl, rfl, rfl⟩
  · rw [heq]; exact addAlignmentPadding_pres r _

/-- Alignment of a no-inline-input row when the missing space is nonzero. -/
theorem alignRow_eq_of_ne (w sx se : ℚ) (r : Row) (hinl : r.hasInlineInput = false)
    (hm : (((if r.hasStatement then se else w) - sx) -
      (if r.hasStatement then r.width - rowLastInputWidth r else r.width)) ≠ 0) :
    alignRow w sx se r = addAlignmentPadding r
      (((if r.hasStatement then se else w) - sx) -
        (if r.hasStatement then r.width - rowLastInputWidth r else r.width)) := by
  simp [alignRow, hinl, hm]

/-- Alignment of a no-inline-input row when the missing space is zero. -/
theorem alignRow_eq_of_eq (w sx se : ℚ) (r : Row) (hinl : r.hasInlineInput = false)
    (hm : (((if r.hasStatement then se else w) - sx) -
      (if r.hasStatement then r.width - rowLastInputWidth r else r.width)) = 0) :
    alignRow w sx se r = r := by
  simp [alignRow, hinl, hm]

/-- After aligning a no-inline-input row that ends with a spacer, the
row's current width — row width, minus the last input's width for
statement rows — equals the desired width computed by
`alignRowElements_`. -/
theorem alignRow_c1 (w sx se : ℚ) (r : Row) (hinl : r.hasInlineInput = false)
    (l₀ : List Measurable) (wsp : ℚ)
    (hdecomp : r.elements = l₀ ++ [mkInRowSpacer wsp]) :
    (if (alignRow w sx se r).hasStatement then
        (alignRow w sx se r).width - rowLastInputWidth (alignRow w sx se r)
      else (alignRow w sx se r).width) =
      (if r.hasStatement then se else w) - sx := by
  have hliw0 : rowLastInputWidth r = findInputWidth l₀.reverse := by
    unfold rowLastInputWidth
    rw [hdecomp]
    exact findInputWidth_spacer wsp l₀
  by_cases hm : (((if r.hasStatement then se else w) - sx) -
      (if r.hasStatement then r.width - rowLastInputWidth r else r.width)) ≠ 0
  · rw [alignRow_eq_of_ne w sx se r hinl hm,
        addAlignmentPadding_trailing r _ l₀ wsp hdecomp]
    generalize hMg : (((if r.hasStatement then se else w) - sx) -
      (if r.hasStatement then r.width - rowLastInputWidth r else r.width)) = M
    have hL : rowLastInputWidth
        { r with elements := l₀ ++ [mkInRowSpacer (wsp + M)],
                 width := r.width + M } = findInputWidth l₀.reverse := by
      unfold rowLastInputWidth
      exact findInputWidth_spacer (wsp + M) l₀
    show (if r.hasStatement then (r.width + M) - rowLastInputWidth
        { r with elements := l₀ ++ [mkInRowSpacer (wsp + M)],
                 width := r.width + M } else r.width + M) = _
    rw [hL]
    by_cases hst : r.hasStatement = true
    · rw [if_pos hst, if_pos hst]
      rw [if_pos hst, if_pos hst, hliw0] at hMg
      linarith [hMg]
    · have hst' : r.hasStatement = false := by
        cases hv : r.hasStatement with
        | false => rfl
        | true => exact absurd hv hst
      rw [if_neg (by simp [hst']), if_neg (by simp [hst'])]
      rw [if_neg (by simp [hst']), if_neg (by simp [hst'])] at hMg
      linarith [hMg]
  · simp only [ne_eq, not_not] at hm
    rw [alignRow_eq_of_eq w sx se r hinl hm]
    by_cases hst : r.hasStatement = true
    · rw [if_pos hst, if_pos hst] at hm
      rw [if_pos hst, if_pos hst]
      linarith [hm]
    · have hst' : r.hasStatement = false := by
        cases hv : r.hasStatement with
        | false => rfl
        | true => exact absurd hv hst
      rw [if_neg (by simp [hst']), if_neg (by simp [hst'])] at hm
      rw [if_neg (by simp [hst']), if_neg (by simp [hst'])]
      linarith [hm]

end Blockly
namespace Blockly

/-- The element walk of `finalize_` keeps each element's input flag and
width. -/
theorem finalizeElems_key (ctr : ℚ) (l : List Measurable) :
    ∀ x, (finalizeElems ctr x l).map (fun e => (e.isInput, e.width)) =
      l.map (fun e => (e.isInput, e.width)) := by
  induction l with
  | nil => intro x; rfl
  | cons e rest ih =>
      intro x
      simp [finalizeElems, ih (x + e.width)]

/-- `findInputWidth` depends only on the input flags and widths. -/
theorem findInputWidth_congr (l₁ l₂ : List Measurable)
    (h : l₁.map (fun e => (e.isInput, e.width)) =
      l₂.map (fun e => (e.isInput, e.width))) :
    findInputWidth l₁ = findInputWidth l₂ := by
  induction l₁ generalizing l₂ with
  | nil =>
      cases l₂ with
      | nil => rfl
      | cons e' rest' => simp at h
  | cons e rest ih =>
      cases l₂ with
      | nil => simp at h
      | cons e' rest' =>
          simp only [List.map_cons, List.cons.injEq, Prod.mk.injEq] at h
          unfold findInputWidth
          rw [h.1.1, h.1.2, ih rest' h.2]

/-- `finalize_` keeps each row's last-input width. -/
theorem rowLastInputWidth_finalizeRow (sx y : ℚ) (r : Row) :
    rowLastInputWidth (finalizeRow sx y r) = rowLastInputWidth r := by
  unfold rowLastInputWidth
  apply findInputWidth_congr
  show ((finalizeElems _ sx r.elements).reverse).map _ = (r.elements.reverse).map _
  rw [List.map_reverse, List.map_reverse, finalizeElems_key]

/-- Positional decomposition of the `finalize_` row walk. -/
theorem finalizeRowsGo_shape (startX : ℚ) (l : List Row) :
    ∀ y i r', ((finalizeRowsGo startX y l).1).get? i = some r' →
      ∃ y0 r0, l.get? i = some r0 ∧ r' = finalizeRow startX y0 r0 := by
  induction l with
  | nil => intro y i r' h; simp [finalizeRowsGo] at h
  | cons r rest ih =>
      intro y i r' h
      cases i with
      | zero =>
          simp [finalizeRowsGo] at h
          exact ⟨y, r, rfl, h.symm⟩
      | succ n =>
          simp [finalizeRowsGo] at h
          obtain ⟨y0, r0, h1, h2⟩ := ih (y + r.height) n r' (by simpa using h)
          exact ⟨y0, r0, by simpa using h1, h2⟩

/-- Every row in the output of `addRowSpacing_` is an original row or a
spacer row. -/
theorem interleaveSpacerRows_mem (c : Constants) (w sx : ℚ) (l : List Row)
    (r : Row) (hr : r ∈ interleaveSpacerRows c w sx l) :
    r ∈ l ∨ r.rtype = "spacer row" := by
  induction l with
  | nil => simp [interleaveSpacerRows] at hr
  | cons a rest ih =>
      cases rest with
      | nil =>
          simp only [interleaveSpacerRows, List.mem_singleton] at hr
          left
          rw [hr]
          exact List.mem_cons_self a []
      | cons a' rest' =>
          simp only [interleaveSpacerRows, List.mem_cons] at hr
          rcases hr with h1 | h2 | h3
          · left; rw [h1]; exact List.mem_cons_self a _
          · right; rw [h2]; rfl
          · rcases ih h3 with hm | hs
            · left; exact List.mem_cons_of_mem a hm
            · right; exact hs

/-- A row of input type after `addElemSpacing_` is never empty (it always
carries the leading spacer). -/
theorem spaceRow_ne_nil (c : Constants) (r : Row)
    (hcond : r.rtype ≠ "top row" ∧ r.rtype ≠ "bottom row") :
    (spaceRow c r).elements ≠ [] := by
  show ((if r.rtype ≠ "top row" ∧ r.rtype ≠ "bottom row" then
      [mkInRowSpacer (getInRowSpacing c none r.elements.head?)] else []) ++
        spacedElems c r.elements) ≠ []
  rw [if_pos hcond]
  simp

end Blockly
namespace Blockly

/-- C1 (amended): after `measure()`, every input row with no inline input
satisfies the alignment equation actually enforced by `alignRowElements_`:
for a statement row, the row width minus the statement (last) input's
width equals `statementEdge − startX` — so the full row width is
`statementEdge − startX` plus the statement input's width, not
`statementEdge − startX` itself — and for a non-statement row the row
width equals `width − startX`. -/
theorem claim1_amended (c : Constants) (b : Block) (i : Nat) (r : Row)
    (h : (measure c b).rows.get? i = some r)
    (hty : r.rtype = "input row") (hinl : r.hasInlineInput = false) :
    (if r.hasStatement then r.width - rowLastInputWidth r else r.width) =
      (if r.hasStatement then (measure c b).statementEdge else (measure c b).width)
        - (measure c b).startX := by
  have h' : ((finalizeRowsGo
      (addRowSpacing c (alignRowElements (preAlign c b))).startX 0
      (addRowSpacing c (alignRowElements (preAlign c b))).rows).1).get? i = some r := h
  obtain ⟨y0, r5, h5, hr5⟩ := finalizeRowsGo_shape _ _ 0 i r h'
  have hmem5 : r5 ∈ (addRowSpacing c (alignRowElements (preAlign c b))).rows :=
    List.get?_mem h5
  have hty5 : r5.rtype = "input row" := by
    have : r.rtype = r5.rtype := by rw [hr5]; rfl
    rw [← this]; exact hty
  have hmem4 : r5 ∈ (alignRowElements (preAlign c b)).rows := by
    have hcases := interleaveSpacerRows_mem c
      (alignRowElements (preAlign c b)).width (alignRowElements (preAlign c b)).startX
      (alignRowElements (preAlign c b)).rows r5 hmem5
    rcases hcases with hm | hsp
    · exact hm
    · rw [hty5] at hsp
      exact absurd hsp (by decide)
  have hmap : (alignRowElements (preAlign c b)).rows =
      ((preAlign c b).rows).map (alignRow (preAlign c b).width
        (preAlign c b).startX (preAlign c b).statementEdge) := rfl
  rw [hmap] at hmem4
  obtain ⟨r3, hr3mem, hr3eq⟩ := List.mem_map.mp hmem4
  have hinl5 : r5.hasInlineInput = false := by
    have : r.hasInlineInput = r5.hasInlineInput := by rw [hr5]; rfl
    rw [← this]; exact hinl
  have hinl3 : r3.hasInlineInput = false := by
    rw [← (alignRow_pres (preAlign c b).width (preAlign c b).startX
      (preAlign c b).statementEdge r3).2.1, hr3eq]
    exact hinl5
  obtain ⟨r0, hr0mem, hform⟩ := preAlign_row_mem c b r3 hr3mem
  have hfields := setStatementEdge_fields
    (computedStatementEdge (addElemSpacing c (createRows c b (initRenderInfo b))))
    (rowMeasure (spaceRow c r0))
  have helem3 : r3.elements = (spaceRow c r0).elements := by
    rw [hform]; exact hfields.1
  have hty0 : r0.rtype = "input row" := by
    have h1 : r3.rtype = r0.rtype := by
      rw [hform]
      rw [hfields.2.2.2.2]
      rfl
    have h2 : r3.rtype = r5.rtype := by
      rw [← hr3eq]
      exact ((alignRow_pres _ _ _ r3).2.2).symm
    rw [← h1, h2, hty5]
  have hcond0 : r0.rtype ≠ "top row" ∧ r0.rtype ≠ "bottom row" := by
    rw [hty0]
    exact ⟨by decide, by decide⟩
  have hdecomp : ∃ l₀ wsp, r3.elements = l₀ ++ [mkInRowSpacer wsp] := by
    rcases spaceRow_elem_shape c r0 with hnil | ⟨l₀, wsp, hw⟩
    · exact absurd hnil (spaceRow_ne_nil c r0 hcond0)
    · exact ⟨l₀, wsp, by rw [helem3, hw]⟩
  obtain ⟨l₀, wsp, hdecomp3⟩ := hdecomp
  have hkey := alignRow_c1 (preAlign c b).width (preAlign c b).startX
    (preAlign c b).statementEdge r3 hinl3 l₀ wsp hdecomp3
  rw [hr3eq] at hkey
  have hst53 : r5.hasStatement = r3.hasStatement := by
    rw [← hr3eq]
    exact (alignRow_pres _ _ _ r3).1
  rw [← hst53] at hkey
  rw [hr5]
  have hliw : rowLastInputWidth (finalizeRow
      (addRowSpacing c (alignRowElements (preAlign c b))).startX y0 r5) =
      rowLastInputWidth r5 := rowLastInputWidth_finalizeRow _ _ _
  show (if r5.hasStatement then (finalizeRow _ y0 r5).width -
      rowLastInputWidth (finalizeRow _ y0 r5) else (finalizeRow _ y0 r5).width) = _
  rw [hliw]
  show (if r5.hasStatement then r5.width - rowLastInputWidth r5 else r5.width) =
    (if r5.hasStatement then (preAlign c b).statementEdge else (preAlign c b).width)
      - (preAlign c b).startX
  exact hkey

/-- C1 (witness): the amended equation instantiated at the statement row
of the concrete one-statement block. -/
theorem claim1_witness :
    (if (((measure cDefault blockStatement).rows.get? 2).getD emptyRow).hasStatement
      then (((measure cDefault blockStatement).rows.get? 2).getD emptyRow).width -
        rowLastInputWidth (((measure cDefault blockStatement).rows.get? 2).getD emptyRow)
      else (((measure cDefault blockStatement).rows.get? 2).getD emptyRow).width) =
      (if (((measure cDefault blockStatement).rows.get? 2).getD emptyRow).hasStatement
        then (measure cDefault blockStatement).statementEdge
        else (measure cDefault blockStatement).width)
        - (measure cDefault blockStatement).startX :=
  claim1_amended cDefault blockStatement 2 _
    (by with_unfolding_all decide) (by with_unfolding_all decide)
    (by with_unfolding_all decide)

end Blockly
